import Mathlib

/-!
Shallow embedding of the Solarus map-entity registry core
(`include/solarus/entities/MapEntities.h`) and the ability name table
(`src/AbilityInfo.cpp`), together with theorems checking the design
document's claims against it.

Functions whose bodies appear in the header or in `AbilityInfo.cpp` are
translated from that source.  Operations declared in the header whose
implementation file is not part of this tree are modelled from the design
document and carry a doc comment starting with `Modelled from the spec:`.
Entities are identified by `Nat` ids; machine integers are modelled as
`Nat`/`Int` (no arithmetic here can overflow the C++ `int` range on the
inputs the callers supply); unchecked container accesses (`operator[]`,
`std::map::at`) are modelled with `getD`/`Option`; a `Debug::die` abort is
modelled as `Except.error`.
-/

namespace Solarus

/-- The `Ability` enumeration (8 members) used by `AbilityInfo.cpp`. -/
inductive Ability where
  | TUNIC
  | SWORD
  | SWORD_KNOWLEDGE
  | SHIELD
  | LIFT
  | SWIM
  | RUN
  | DETECT_WEAK_WALLS
  deriving DecidableEq, Repr

/-- The `ability_names` table of `AbilityInfo.cpp`, in `std::map` key
(enumeration) order. -/
def ability_names : List (Ability × String) :=
  [ (Ability.TUNIC, "tunic"),
    (Ability.SWORD, "sword"),
    (Ability.SWORD_KNOWLEDGE, "sword_knowledge"),
    (Ability.SHIELD, "shield"),
    (Ability.LIFT, "lift"),
    (Ability.SWIM, "swim"),
    (Ability.RUN, "run"),
    (Ability.DETECT_WEAK_WALLS, "detect_weak_walls") ]

/-- `AbilityInfo::get_ability_name`: `ability_names.at(ability)`; the
`none` case models the exception `std::map::at` raises on a missing key. -/
def get_ability_name (ability : Ability) : Option String :=
  (ability_names.find? (fun kvp => kvp.1 == ability)).map (fun kvp => kvp.2)

/-- `AbilityInfo::get_ability_by_name`: linear scan over `ability_names`
comparing mapped names; `Except.error` models the `Debug::die` call
reached when no entry matches. -/
def get_ability_by_name (ability_name : String) : Except String Ability :=
  match ability_names.find? (fun kvp => kvp.2 == ability_name) with
  | some kvp => Except.ok kvp.1
  | none => Except.error ("Unknown ability: " ++ ability_name)

/-- Modelled from the spec: the ground classification values named in the
design document (`Ground.h` is not part of this tree); `EMPTY` doubles as
the value an unchecked out-of-range grid read yields in this model. -/
inductive Ground where
  | EMPTY
  | TRAVERSABLE
  | WALL
  | WATER
  | HOLE
  | LADDER
  deriving DecidableEq, Repr

/-- The fields of `MapEntities` used by the static ground grid:
`map_width8`, `map_height8`, `num_layers` and `tiles_ground` (for each
layer, a row-major list holding one `Ground` per 8x8 cell). -/
structure GroundGrid where
  map_width8 : Nat
  map_height8 : Nat
  num_layers : Nat
  tiles_ground : List (List Ground)
  deriving DecidableEq, Repr

/-- `MapEntities::get_tile_ground` (inline in `MapEntities.h`):
`tiles_ground[layer][(y >> 3) * map_width8 + (x >> 3)]` with no bounds
check and no type check; the unchecked `operator[]` is modelled as `getD`
(an out-of-range access simply produces some value instead of failing). -/
def GroundGrid.get_tile_ground (st : GroundGrid) (layer x y : Nat) : Ground :=
  (st.tiles_ground.getD layer []).getD
    ((y >>> 3) * st.map_width8 + (x >>> 3)) Ground.EMPTY

/-- Modelled from the spec: the behaviour claim C3 ascribes to
`get_tile_ground` — detect an out-of-range layer or grid index and abort
(`Except.error`), otherwise return the cell value. -/
def GroundGrid.get_tile_groundChecked (st : GroundGrid) (layer x y : Nat) :
    Except String Ground :=
  if hl : layer < st.tiles_ground.length then
    let row := st.tiles_ground.get ⟨layer, hl⟩
    let index := (y >>> 3) * st.map_width8 + (x >>> 3)
    if hi : index < row.length then
      Except.ok (row.get ⟨index, hi⟩)
    else
      Except.error "ground grid access out of range"
  else
    Except.error "layer out of range"

/-- Modelled from the spec: `MapEntities::set_tile_ground(layer, x8, y8,
ground)` writes one 8x8 cell of the ground grid (the implementation file
is absent from this tree). -/
def GroundGrid.set_tile_ground (st : GroundGrid) (layer x8 y8 : Nat)
    (ground : Ground) : GroundGrid :=
  { st with
    tiles_ground :=
      st.tiles_ground.set layer
        ((st.tiles_ground.getD layer []).set (y8 * st.map_width8 + x8) ground) }

/-- A static tile as ground-grid construction sees it: layer, pixel
bounding box and ground classification. -/
structure Tile where
  layer : Nat
  x : Nat
  y : Nat
  width : Nat
  height : Nat
  ground : Ground
  deriving DecidableEq, Repr

/-- Modelled from the spec: `MapEntities::add_tile` writes the tile's
ground into every 8x8 cell its bounding box covers; a tile added later
overwrites cells written by tiles added earlier (last writer wins at the
same layer). -/
def GroundGrid.add_tile (st : GroundGrid) (t : Tile) : GroundGrid :=
  let x8b := t.x / 8
  let y8b := t.y / 8
  let nx := (t.x + t.width) / 8 - x8b
  let ny := (t.y + t.height) / 8 - y8b
  (List.range ny).foldl (fun acc dy =>
    (List.range nx).foldl (fun acc2 dx =>
      acc2.set_tile_ground t.layer (x8b + dx) (y8b + dy) t.ground) acc) st

/-- Modelled from the spec: the loader initialises the per-layer ground
grids to the dimensions of the map before any tile is added. -/
def emptyGrid (numLayers w8 h8 : Nat) : GroundGrid :=
  ⟨w8, h8, numLayers, List.replicate numLayers (List.replicate (w8 * h8) Ground.EMPTY)⟩

/-- The two-layer scenario map of claim C4: a 16x8-pixel WALL tile added
first, then an 8x8-pixel WATER tile over its left half. -/
def c4Grid : GroundGrid :=
  ((emptyGrid 2 2 1).add_tile ⟨0, 0, 0, 16, 8, Ground.WALL⟩).add_tile
    ⟨0, 0, 0, 8, 8, Ground.WATER⟩

/-- A one-layer, one-cell grid used to exercise out-of-range queries. -/
def oobGrid : GroundGrid :=
  ⟨1, 1, 1, [[Ground.WALL]]⟩

/-- C10: every ability's registered name round-trips through
`get_ability_by_name`, and a string that is none of the 8 registered names
makes `get_ability_by_name` abort via `Debug::die` (`Except.error`) rather
than return a value. -/
theorem ability_name_round_trip :
    (∀ a : Ability, ∃ n : String,
      get_ability_name a = some n ∧ get_ability_by_name n = Except.ok a) ∧
    (∀ s : String, (∀ kvp ∈ ability_names, kvp.2 ≠ s) →
      get_ability_by_name s = Except.error ("Unknown ability: " ++ s)) := by
  constructor
  · intro a
    cases a <;> exact ⟨_, rfl, rfl⟩
  · intro s hs
    unfold get_ability_by_name
    have hnone : ability_names.find? (fun kvp => kvp.2 == s) = none := by
      rw [List.find?_eq_none]
      intro kvp hkvp
      simpa using hs kvp hkvp
    rw [hnone]

/-- Witness for C10 at the concrete unknown name `"frob"`. -/
theorem ability_name_round_trip_witness :
    get_ability_by_name "frob" = Except.error ("Unknown ability: " ++ "frob") :=
  ability_name_round_trip.2 "frob" (by decide)

/-- C2: for `layer`, `x`, `y` valid for the grid, `get_tile_ground` returns
exactly the precomputed cell `tiles_ground[layer][(y >> 3) * map_width8 +
(x >> 3)]`. -/
theorem get_tile_ground_eq_cell (st : GroundGrid) (layer x y : Nat)
    (hl : layer < st.tiles_ground.length)
    (hi : (y >>> 3) * st.map_width8 + (x >>> 3) <
      (st.tiles_ground.get ⟨layer, hl⟩).length) :
    st.get_tile_ground layer x y =
      (st.tiles_ground.get ⟨layer, hl⟩).get
        ⟨(y >>> 3) * st.map_width8 + (x >>> 3), hi⟩ := by
  unfold GroundGrid.get_tile_ground
  rw [List.getD_eq_getElem st.tiles_ground [] hl]
  rw [List.getD_eq_getElem _ _ (by simpa using hi)]
  simp [List.get_eq_getElem]

/-- Witness for C2 on a concrete 2x1-cell grid at the point (12, 4). -/
theorem get_tile_ground_eq_cell_witness :
    (⟨2, 1, 1, [[Ground.WALL, Ground.WATER]]⟩ :
        GroundGrid).get_tile_ground 0 12 4 = Ground.WATER := by
  have h := get_tile_ground_eq_cell ⟨2, 1, 1, [[Ground.WALL, Ground.WATER]]⟩
    0 12 4 (by decide) (by decide)
  simpa using h

/-- C3 counterexample: querying layer 5 of the 1-layer map `oobGrid` is a
contract violation that `get_tile_ground` does not detect: the unchecked
read proceeds and yields a ground value, while the checking behaviour the
claim describes (`get_tile_groundChecked`) would abort. -/
theorem get_tile_ground_no_abort_counterexample :
    oobGrid.num_layers = 1 ∧
    oobGrid.get_tile_ground 5 0 0 = Ground.EMPTY ∧
    oobGrid.get_tile_groundChecked 5 0 0 = Except.error "layer out of range" :=
  ⟨rfl, rfl, rfl⟩

/-- C3 amended: an out-of-range layer query against `get_tile_ground` is
not detected: the function performs the unchecked read and returns (the
model's default ground), taking no abort path, whereas the spec-described
checking variant aborts. -/
theorem get_tile_ground_unchecked_oob (st : GroundGrid) (layer x y : Nat)
    (hl : st.tiles_ground.length ≤ layer) :
    st.get_tile_ground layer x y = Ground.EMPTY ∧
    st.get_tile_groundChecked layer x y = Except.error "layer out of range" := by
  constructor
  · unfold GroundGrid.get_tile_ground
    rw [List.getD_eq_default st.tiles_ground [] hl]
    simp [List.getD]
  · unfold GroundGrid.get_tile_groundChecked
    rw [dif_neg (by omega)]

/-- Witness for the amended C3 on the concrete grid `oobGrid` at layer 5. -/
theorem get_tile_ground_unchecked_oob_witness :
    oobGrid.get_tile_ground 5 2 3 = Ground.EMPTY ∧
    oobGrid.get_tile_groundChecked 5 2 3 = Except.error "layer out of range" :=
  get_tile_ground_unchecked_oob oobGrid 5 2 3 (by decide)

/-- C4: ground-grid construction is last-writer-wins among overlapping
tiles of the same layer: in the scenario grid, the cell under (4, 4) holds
the later WATER tile and the cell under (12, 4) keeps the WALL tile. -/
theorem ground_last_writer_wins :
    c4Grid.get_tile_ground 0 4 4 = Ground.WATER ∧
    c4Grid.get_tile_ground 0 12 4 = Ground.WALL := by
  decide

/-- Modelled from the spec: the per-layer `MapEntities::ZCache`.  Entities
are `Nat` ids; `z_values` maps each tracked entity to its Z value and
`min`/`max` bound the values handed out so far (the header declares the
fields; the operation bodies are modelled from the design document). -/
structure ZCache where
  z_values : List (Nat × Int)
  min : Int
  max : Int
  deriving DecidableEq, Repr

/-- A fresh per-layer cache with no tracked entity. -/
def ZCache.init : ZCache := ⟨[], 0, 0⟩

/-- `ZCache::get_z`: the current Z value of a tracked entity. -/
def ZCache.get_z (c : ZCache) (e : Nat) : Option Int :=
  (c.z_values.find? (fun p => p.1 == e)).map (fun p => p.2)

/-- Modelled from the spec: `ZCache::add` assigns `max + 1` and
increments `max`. -/
def ZCache.add (c : ZCache) (e : Nat) : ZCache :=
  ⟨(e, c.max + 1) :: c.z_values.filter (fun p => p.1 != e), c.min, c.max + 1⟩

/-- Modelled from the spec: `ZCache::bring_to_front` reassigns the entity
to `max + 1` and increments `max`; the old slot is abandoned. -/
def ZCache.bring_to_front (c : ZCache) (e : Nat) : ZCache :=
  ⟨(e, c.max + 1) :: c.z_values.filter (fun p => p.1 != e), c.min, c.max + 1⟩

/-- Modelled from the spec: `ZCache::bring_to_back` reassigns the entity
to `min - 1` and decrements `min`. -/
def ZCache.bring_to_back (c : ZCache) (e : Nat) : ZCache :=
  ⟨(e, c.min - 1) :: c.z_values.filter (fun p => p.1 != e), c.min - 1, c.max⟩

/-- `ZCache::remove` drops the mapping and shifts no other value. -/
def ZCache.remove (c : ZCache) (e : Nat) : ZCache :=
  ⟨c.z_values.filter (fun p => p.1 != e), c.min, c.max⟩

/-- One call against a per-layer `ZCache`. -/
inductive ZOp where
  | add (e : Nat)
  | front (e : Nat)
  | back (e : Nat)
  | remove (e : Nat)
  deriving DecidableEq, Repr

/-- Dispatch one `ZOp` to the corresponding `ZCache` operation. -/
def ZCache.applyOp (c : ZCache) : ZOp → ZCache
  | ZOp.add e => c.add e
  | ZOp.front e => c.bring_to_front e
  | ZOp.back e => c.bring_to_back e
  | ZOp.remove e => c.remove e

/-- Run a sequence of `ZCache` calls left to right. -/
def ZCache.applyOps (c : ZCache) (ops : List ZOp) : ZCache :=
  ops.foldl ZCache.applyOp c

/-- `true` when the call is a plain `add` or `remove` (no reordering) that
does not target entity `a`. -/
def ZOp.isPlainAvoiding (op : ZOp) (a : Nat) : Bool :=
  match op with
  | ZOp.add e => e != a
  | ZOp.remove e => e != a
  | ZOp.front _ => false
  | ZOp.back _ => false

/-- The `ZCache` data invariant: `min ≤ max` and every tracked Z value
lies between `min` and `max`. -/
def ZCache.Inv (c : ZCache) : Prop :=
  c.min ≤ c.max ∧ ∀ p ∈ c.z_values, c.min ≤ p.2 ∧ p.2 ≤ c.max

instance (c : ZCache) : Decidable c.Inv :=
  inferInstanceAs (Decidable (c.min ≤ c.max ∧ ∀ p ∈ c.z_values, c.min ≤ p.2 ∧ p.2 ≤ c.max))

/-- `find?` looks through a `filter` unchanged when the search predicate
forces the filter predicate. -/
theorem find?_filter_of_imp {α : Type} (l : List α) (p q : α → Bool)
    (h : ∀ x, p x = true → q x = true) :
    (l.filter q).find? p = l.find? p := by
  induction l with
  | nil => rfl
  | cons a t ih =>
    by_cases hq : q a = true
    · rw [List.filter_cons_of_pos hq]
      cases hp : p a with
      | true => rw [List.find?_cons_of_pos _ hp, List.find?_cons_of_pos _ hp]
      | false => rw [List.find?_cons_of_neg _ (by simp [hp]),
          List.find?_cons_of_neg _ (by simp [hp]), ih]
    · have hp : p a = false := by
        cases hpa : p a
        · rfl
        · exact absurd (h a hpa) hq
      rw [List.filter_cons_of_neg (by simpa using hq), ih,
        List.find?_cons_of_neg _ (by simp [hp])]

/-- Adding an entity gives it Z value `max + 1`. -/
theorem ZCache.get_z_add_self (c : ZCache) (e : Nat) :
    (c.add e).get_z e = some (c.max + 1) := by
  simp [ZCache.add, ZCache.get_z]

/-- `bring_to_front` gives the entity Z value `max + 1`. -/
theorem ZCache.get_z_front_self (c : ZCache) (e : Nat) :
    (c.bring_to_front e).get_z e = some (c.max + 1) := by
  simp [ZCache.bring_to_front, ZCache.get_z]

/-- `bring_to_back` gives the entity Z value `min - 1`. -/
theorem ZCache.get_z_back_self (c : ZCache) (e : Nat) :
    (c.bring_to_back e).get_z e = some (c.min - 1) := by
  simp [ZCache.bring_to_back, ZCache.get_z]

/-- Inserting a mapping for a different entity leaves a tracked Z value
alone. -/
theorem ZCache.get_z_insert_other (zs : List (Nat × Int)) (lo hi : Int)
    (e a : Nat) (z : Int) (hne : e ≠ a) :
    ZCache.get_z ⟨(e, z) :: zs.filter (fun p => p.1 != e), lo, hi⟩ a =
      ZCache.get_z ⟨zs, lo, hi⟩ a := by
  unfold ZCache.get_z
  rw [List.find?_cons_of_neg _ (by simpa using hne)]
  rw [find?_filter_of_imp zs _ _ ?himp]
  intro x hx
  simp only [beq_iff_eq] at hx
  simp only [hx, bne_iff_ne, ne_eq]
  omega

/-- Removing a different entity leaves a tracked Z value alone. -/
theorem ZCache.get_z_remove_other (c : ZCache) (e a : Nat) (hne : e ≠ a) :
    (c.remove e).get_z a = c.get_z a := by
  unfold ZCache.get_z ZCache.remove
  rw [find?_filter_of_imp c.z_values _ _ ?himp]
  intro x hx
  simp only [beq_iff_eq] at hx
  simp only [hx, bne_iff_ne, ne_eq]
  omega

/-- A plain `add`/`remove` call avoiding `a` leaves `a`'s Z value alone. -/
theorem ZCache.get_z_applyOp_avoid (c : ZCache) (op : ZOp) (a : Nat)
    (h : op.isPlainAvoiding a = true) :
    (c.applyOp op).get_z a = c.get_z a := by
  cases op with
  | add e =>
    have hne : e ≠ a := by simpa [ZOp.isPlainAvoiding] using h
    exact ZCache.get_z_insert_other c.z_values c.min (c.max + 1) e a (c.max + 1) hne
  | front e => simp [ZOp.isPlainAvoiding] at h
  | back e => simp [ZOp.isPlainAvoiding] at h
  | remove e =>
    have hne : e ≠ a := by simpa [ZOp.isPlainAvoiding] using h
    exact ZCache.get_z_remove_other c e a hne

/-- A sequence of plain `add`/`remove` calls avoiding `a` leaves `a`'s Z
value alone. -/
theorem ZCache.get_z_applyOps_avoid (c : ZCache) (ops : List ZOp) (a : Nat)
    (h : ∀ op ∈ ops, op.isPlainAvoiding a = true) :
    (c.applyOps ops).get_z a = c.get_z a := by
  induction ops generalizing c with
  | nil => rfl
  | cons op t ih =>
    have h1 : op.isPlainAvoiding a = true := h op (List.mem_cons_self op t)
    have h2 : ∀ o ∈ t, o.isPlainAvoiding a = true :=
      fun o ho => h o (List.mem_cons_of_mem op ho)
    calc (c.applyOps (op :: t)).get_z a
        = ((c.applyOp op).applyOps t).get_z a := rfl
      _ = (c.applyOp op).get_z a := ih (c.applyOp op) h2
      _ = c.get_z a := ZCache.get_z_applyOp_avoid c op a h1

/-- No `ZCache` call ever decreases `max`. -/
theorem ZCache.max_le_applyOp (c : ZCache) (op : ZOp) :
    c.max ≤ (c.applyOp op).max := by
  cases op <;>
    (simp only [ZCache.applyOp, ZCache.add, ZCache.bring_to_front,
      ZCache.bring_to_back, ZCache.remove]; omega)

/-- No sequence of `ZCache` calls ever decreases `max`. -/
theorem ZCache.max_le_applyOps (c : ZCache) (ops : List ZOp) :
    c.max ≤ (c.applyOps ops).max := by
  induction ops generalizing c with
  | nil => exact le_refl _
  | cons op t ih =>
    exact le_trans (ZCache.max_le_applyOp c op) (ih (c.applyOp op))

/-- A Z value read out of the cache belongs to a tracked entry. -/
theorem ZCache.mem_of_get_z (c : ZCache) (e : Nat) (z : Int)
    (h : c.get_z e = some z) : ∃ p ∈ c.z_values, p.2 = z := by
  unfold ZCache.get_z at h
  cases hf : c.z_values.find? (fun p => p.1 == e) with
  | none => rw [hf] at h; simp at h
  | some p =>
    rw [hf] at h
    simp at h
    exact ⟨p, List.mem_of_find?_eq_some hf, h⟩

/-- Every `ZCache` call preserves the data invariant. -/
theorem ZCache.Inv.applyOp {c : ZCache} (hc : c.Inv) (op : ZOp) :
    (c.applyOp op).Inv := by
  obtain ⟨hmm, hall⟩ := hc
  cases op with
  | add e =>
    simp only [ZCache.applyOp, ZCache.add, ZCache.Inv]
    refine ⟨by omega, ?_⟩
    intro p hp
    rcases List.mem_cons.mp hp with h | h
    · subst h; refine ⟨?_, ?_⟩ <;> simp <;> try omega
    · have h2 := hall p (List.mem_of_mem_filter h)
      omega
  | front e =>
    simp only [ZCache.applyOp, ZCache.bring_to_front, ZCache.Inv]
    refine ⟨by omega, ?_⟩
    intro p hp
    rcases List.mem_cons.mp hp with h | h
    · subst h; refine ⟨?_, ?_⟩ <;> simp <;> try omega
    · have h2 := hall p (List.mem_of_mem_filter h)
      omega
  | back e =>
    simp only [ZCache.applyOp, ZCache.bring_to_back, ZCache.Inv]
    refine ⟨by omega, ?_⟩
    intro p hp
    rcases List.mem_cons.mp hp with h | h
    · subst h; refine ⟨?_, ?_⟩ <;> simp <;> try omega
    · have h2 := hall p (List.mem_of_mem_filter h)
      omega
  | remove e =>
    simp only [ZCache.applyOp, ZCache.remove, ZCache.Inv]
    refine ⟨hmm, ?_⟩
    intro p hp
    exact hall p (List.mem_of_mem_filter hp)

/-- The fresh cache satisfies the data invariant. -/
theorem ZCache.Inv.init : ZCache.init.Inv :=
  ⟨le_refl 0, fun p hp => absurd hp (List.not_mem_nil p)⟩

/-- C5: in a per-layer `ZCache`, an entity added later (across any plain
`add`/`remove` calls not touching the first entity) gets a strictly
greater Z than one added earlier, and immediately after `bring_to_front`
(`bring_to_back`) the entity's Z is strictly greater (strictly less) than
the Z of every other currently tracked entity. -/
theorem z_order_guarantees :
    (∀ (c : ZCache) (A B : Nat) (ops : List ZOp),
      (∀ op ∈ ops, op.isPlainAvoiding A = true) →
      ∃ za zb,
        ((c.add A).applyOps ops).get_z A = some za ∧
        (((c.add A).applyOps ops).add B).get_z B = some zb ∧
        za < zb) ∧
    (∀ (c : ZCache) (A X : Nat) (zx : Int), c.Inv → X ≠ A →
      c.get_z X = some zx →
      (∃ za, (c.bring_to_front A).get_z A = some za ∧
        (c.bring_to_front A).get_z X = some zx ∧ zx < za) ∧
      (∃ zb, (c.bring_to_back A).get_z A = some zb ∧
        (c.bring_to_back A).get_z X = some zx ∧ zb < zx)) := by
  constructor
  · intro c A B ops hops
    refine ⟨c.max + 1, ((c.add A).applyOps ops).max + 1, ?_, ?_, ?_⟩
    · rw [ZCache.get_z_applyOps_avoid _ ops A hops, ZCache.get_z_add_self]
    · exact ZCache.get_z_add_self _ B
    · have h1 : (c.add A).max = c.max + 1 := rfl
      have h2 := ZCache.max_le_applyOps (c.add A) ops
      omega
  · intro c A X zx hInv hne hx
    obtain ⟨hmm, hall⟩ := hInv
    obtain ⟨p, hp, hpz⟩ := ZCache.mem_of_get_z c X zx hx
    have hbz := hall p hp
    have hAX : A ≠ X := fun h => hne h.symm
    constructor
    · refine ⟨c.max + 1, ZCache.get_z_front_self c A, ?_, by omega⟩
      calc (c.bring_to_front A).get_z X
          = ZCache.get_z ⟨c.z_values, c.min, c.max⟩ X :=
            ZCache.get_z_insert_other c.z_values c.min (c.max + 1)
              A X (c.max + 1) hAX
        _ = some zx := hx
    · refine ⟨c.min - 1, ZCache.get_z_back_self c A, ?_, by omega⟩
      calc (c.bring_to_back A).get_z X
          = ZCache.get_z ⟨c.z_values, c.min, c.max⟩ X :=
            ZCache.get_z_insert_other c.z_values (c.min - 1) c.max
              A X (c.min - 1) hAX
        _ = some zx := hx

/-- Witness for C5: entity 1 is added, entities 5 and 6 churn through the
cache, entity 2 is added later and lands strictly above entity 1; and in a
cache tracking entities 3 and 4, reordering entity 4 moves it strictly
above, respectively strictly below, entity 3. -/
theorem z_order_guarantees_witness :
    (∃ za zb,
      ((ZCache.init.add 1).applyOps [ZOp.add 5, ZOp.add 6, ZOp.remove 5]).get_z 1 = some za ∧
      (((ZCache.init.add 1).applyOps [ZOp.add 5, ZOp.add 6, ZOp.remove 5]).add 2).get_z 2 = some zb ∧
      za < zb) ∧
    ((∃ za, (((ZCache.init.add 3).add 4).bring_to_front 4).get_z 4 = some za ∧
      (((ZCache.init.add 3).add 4).bring_to_front 4).get_z 3 = some 1 ∧ (1 : Int) < za) ∧
     (∃ zb, (((ZCache.init.add 3).add 4).bring_to_back 4).get_z 4 = some zb ∧
      (((ZCache.init.add 3).add 4).bring_to_back 4).get_z 3 = some 1 ∧ zb < (1 : Int))) :=
  ⟨z_order_guarantees.1 ZCache.init 1 2 [ZOp.add 5, ZOp.add 6, ZOp.remove 5] (by decide),
   z_order_guarantees.2 ((ZCache.init.add 3).add 4) 4 3 1 (by decide) (by decide) (by decide)⟩

/-- The per-entity attributes the registry consumes: optional unique
name, type tag, layer, the "drawn in Y-order" flag and the liveness
("being removed") flag. -/
structure EntityInfo where
  name : Option String
  etype : Nat
  layer : Nat
  yOrder : Bool
  being_removed : Bool
  deriving DecidableEq, Repr

/-- Mark one entity's arena record as being removed. -/
def markRemoved (l : List (Nat × EntityInfo)) (e : Nat) :
    List (Nat × EntityInfo) :=
  l.map (fun p => if p.1 = e then (p.1, { p.2 with being_removed := true }) else p)

/-- Whether the arena knows `e` only as removed (an entity absent from
the arena counts as removed). -/
def lookupRemoved (l : List (Nat × EntityInfo)) (e : Nat) : Bool :=
  match l.find? (fun p => p.1 == e) with
  | some p => p.2.being_removed
  | none => true

/-- Replace the element at one index of a list, leaving the other
positions (and an out-of-range index) alone. -/
def modifyAt {α : Type} : List α → Nat → (α → α) → List α
  | [], _, _ => []
  | x :: xs, 0, f => f x :: xs
  | x :: xs, i + 1, f => x :: modifyAt xs i f

/-- The indices of `MapEntities` that the registry claims are about:
the arena of entity records plus `named_entities`, `all_entities`,
`entities_by_type` (per type, then per layer), the quadtree contents,
the per-layer `z_caches`, the pending-removal queue and the two
per-layer draw lists (all declared in `MapEntities.h`). -/
structure Registry where
  num_layers : Nat
  entities : List (Nat × EntityInfo)
  named_entities : List (String × Nat)
  all_entities : List Nat
  entities_by_type : List (Nat × List (List Nat))
  quadtree : List Nat
  z_caches : List ZCache
  entities_to_remove : List Nat
  entities_drawn_first : List (List Nat)
  entities_drawn_y_order : List (List Nat)
  deriving DecidableEq, Repr

/-- Whether the registry considers `e` as being removed. -/
def Registry.is_being_removed (st : Registry) (e : Nat) : Bool :=
  lookupRemoved st.entities e

/-- Modelled from the spec: `MapEntities::find_entity` looks the name up
in `named_entities` and returns an absent result when there is no such
entity or it is being removed. -/
def Registry.find_entity (st : Registry) (n : String) : Option Nat :=
  match st.named_entities.find? (fun p => p.1 == n) with
  | some p => if st.is_being_removed p.2 then none else some p.2
  | none => none

/-- Modelled from the spec: `MapEntities::get_entity` returns the same
explicit not-found result as `find_entity` (a miss is a recoverable
outcome, not a failure). -/
def Registry.get_entity (st : Registry) (n : String) : Option Nat :=
  st.find_entity n

/-- Modelled from the spec: record an entity under its type and layer in
`entities_by_type`, creating the per-layer vector on first use of the
type. -/
def addTypeEntry (m : List (Nat × List (List Nat))) (t layerIdx nl e : Nat) :
    List (Nat × List (List Nat)) :=
  if m.any (fun p => p.1 == t) then
    m.map (fun p =>
      if p.1 == t then (p.1, modifyAt p.2 layerIdx (fun s => s ++ [e])) else p)
  else
    (t, modifyAt (List.replicate nl []) layerIdx (fun s => s ++ [e])) :: m

/-- Modelled from the spec: the registration path of `add_entity` once
the name check has passed: record the entity in the arena, the named map
(if named), `all_entities`, its type and layer set, the quadtree, the
layer's Z cache and the draw list selected by the Y-order flag. -/
def Registry.register (st : Registry) (e : Nat) (info : EntityInfo) : Registry :=
  { st with
    entities := (e, info) :: st.entities,
    named_entities :=
      match info.name with
      | some n => (n, e) :: st.named_entities
      | none => st.named_entities,
    all_entities := st.all_entities ++ [e],
    entities_by_type := addTypeEntry st.entities_by_type info.etype info.layer st.num_layers e,
    quadtree := st.quadtree ++ [e],
    z_caches := modifyAt st.z_caches info.layer (fun c => c.add e),
    entities_drawn_first :=
      if info.yOrder then st.entities_drawn_first
      else modifyAt st.entities_drawn_first info.layer (fun l => l ++ [e]),
    entities_drawn_y_order :=
      if info.yOrder then modifyAt st.entities_drawn_y_order info.layer (fun l => l ++ [e])
      else st.entities_drawn_y_order }

/-- Modelled from the spec: `MapEntities::add_entity` fails when the
entity's name is still present in `named_entities`, and otherwise
registers the entity in every index. -/
def Registry.add_entity (st : Registry) (e : Nat) (info : EntityInfo) :
    Except String Registry :=
  match info.name with
  | some n =>
      if st.named_entities.any (fun p => p.1 == n) then
        Except.error ("name already in use: " ++ n)
      else
        Except.ok (st.register e info)
  | none => Except.ok (st.register e info)

/-- Modelled from the spec: `MapEntities::remove_entity` marks the entity
as being removed and appends it to `entities_to_remove`; no index is
touched until the sweep. -/
def Registry.remove_entity (st : Registry) (e : Nat) : Registry :=
  { st with
    entities := markRemoved st.entities e,
    entities_to_remove := st.entities_to_remove ++ [e] }

/-- Modelled from the spec: `remove_entity(name)` resolves the name in
`named_entities` first and is a no-op on a miss. -/
def Registry.remove_entity_named (st : Registry) (n : String) : Registry :=
  match st.named_entities.find? (fun p => p.1 == n) with
  | some p => st.remove_entity p.2
  | none => st

/-- Modelled from the spec: `MapEntities::remove_marked_entities` unlinks
every queued entity from every index and clears the queue. -/
def Registry.remove_marked_entities (st : Registry) : Registry :=
  let rem := st.entities_to_remove
  { st with
    entities := st.entities.filter (fun p => !(rem.contains p.1)),
    named_entities := st.named_entities.filter (fun p => !(rem.contains p.2)),
    all_entities := st.all_entities.filter (fun e => !(rem.contains e)),
    entities_by_type := st.entities_by_type.map (fun tp =>
      (tp.1, tp.2.map (fun s => s.filter (fun e => !(rem.contains e))))),
    quadtree := st.quadtree.filter (fun e => !(rem.contains e)),
    z_caches := st.z_caches.map (fun c =>
      ⟨c.z_values.filter (fun p => !(rem.contains p.1)), c.min, c.max⟩),
    entities_to_remove := [],
    entities_drawn_first := st.entities_drawn_first.map (fun l =>
      l.filter (fun e => !(rem.contains e))),
    entities_drawn_y_order := st.entities_drawn_y_order.map (fun l =>
      l.filter (fun e => !(rem.contains e))) }

/-- Modelled from the spec: `MapEntities::update` runs every live
entity's per-frame hook (external to this core, a no-op here) and then
the removal sweep. -/
def Registry.update (st : Registry) : Registry :=
  st.remove_marked_entities

/-- `MapEntities::get_entities`: the `all_entities` list. -/
def Registry.get_entities (st : Registry) : List Nat :=
  st.all_entities

/-- After the sweep, anything surviving one of the filtered lists is not
a queued entity. -/
theorem not_mem_filter_out {α : Type} [BEq α] [LawfulBEq α]
    (rem l : List α) (e : α) (he : e ∈ rem) :
    e ∉ l.filter (fun x => !(rem.contains x)) := by
  intro hmem
  have h := (List.mem_filter.mp hmem).2
  rw [Bool.not_eq_eq_eq_not] at h
  simp only [Bool.not_true] at h
  exact absurd (List.elem_iff.mpr he) (by simp [List.contains] at h ⊢; exact h)

/-- C7: removal is deferred: `remove_entity` leaves the entity list seen
by in-flight iteration untouched, and once the next `update()` returns
the entity is gone from the arena, the named map, `all_entities`, the
type/layer sets, the quadtree, every Z cache and both draw lists. -/
theorem deferred_removal (st : Registry) (e : Nat) :
    (st.remove_entity e).get_entities = st.get_entities ∧
    (e ∉ ((st.remove_entity e).update).all_entities ∧
     (∀ p ∈ ((st.remove_entity e).update).named_entities, p.2 ≠ e) ∧
     e ∉ ((st.remove_entity e).update).quadtree ∧
     (∀ tp ∈ ((st.remove_entity e).update).entities_by_type, ∀ s ∈ tp.2, e ∉ s) ∧
     (∀ c ∈ ((st.remove_entity e).update).z_caches, c.get_z e = none) ∧
     (∀ l ∈ ((st.remove_entity e).update).entities_drawn_first, e ∉ l) ∧
     (∀ l ∈ ((st.remove_entity e).update).entities_drawn_y_order, e ∉ l) ∧
     (∀ p ∈ ((st.remove_entity e).update).entities, p.1 ≠ e)) := by
  have he : e ∈ (st.remove_entity e).entities_to_remove := by
    simp [Registry.remove_entity]
  refine ⟨rfl, ?_, ?_, ?_, ?_, ?_, ?_, ?_, ?_⟩
  · exact not_mem_filter_out _ _ e he
  · intro p hp hpe
    have h2 := (List.mem_filter.mp hp).2
    simp only [hpe] at h2
    simp [List.contains] at h2
    exact h2 he
  · exact not_mem_filter_out _ _ e he
  · intro tp htp s hs
    simp only [Registry.update, Registry.remove_marked_entities, List.mem_map] at htp
    obtain ⟨tp0, _, rfl⟩ := htp
    simp only [List.mem_map] at hs
    obtain ⟨s0, _, rfl⟩ := hs
    exact not_mem_filter_out _ _ e he
  · intro c hc
    simp only [Registry.update, Registry.remove_marked_entities, List.mem_map] at hc
    obtain ⟨c0, _, rfl⟩ := hc
    unfold ZCache.get_z
    rw [List.find?_eq_none.mpr ?hn]
    · rfl
    · intro p hp hpe
      simp only [beq_iff_eq] at hpe
      have h2 := (List.mem_filter.mp hp).2
      simp only [hpe] at h2
      simp [List.contains] at h2
      exact h2 he
  · intro l hl
    simp only [Registry.update, Registry.remove_marked_entities, List.mem_map] at hl
    obtain ⟨l0, _, rfl⟩ := hl
    exact not_mem_filter_out _ _ e he
  · intro l hl
    simp only [Registry.update, Registry.remove_marked_entities, List.mem_map] at hl
    obtain ⟨l0, _, rfl⟩ := hl
    exact not_mem_filter_out _ _ e he
  · intro p hp hpe
    have h2 := (List.mem_filter.mp hp).2
    simp only [hpe] at h2
    simp [List.contains] at h2
    exact h2 he

/-- Marking an entity as removed is visible to the arena lookup at once. -/
theorem lookupRemoved_markRemoved (l : List (Nat × EntityInfo)) (e : Nat) :
    lookupRemoved (markRemoved l e) e = true := by
  induction l with
  | nil => rfl
  | cons p t ih =>
    by_cases hpe : p.1 = e
    · unfold markRemoved lookupRemoved
      simp [hpe]
    · unfold markRemoved lookupRemoved at ih ⊢
      simp only [List.map_cons, if_neg hpe]
      rw [List.find?_cons_of_neg _ (by simpa using hpe)]
      exact ih

/-- C8: `find_entity`/`get_entity` on a name with no live bearer return an
explicit not-found result, and `get_entity` already misses right after
`remove_entity(name)`, before any sweep has run. -/
theorem lookup_miss_and_logical_removal (st : Registry) (n : String)
    (hnolive : ∀ p ∈ st.named_entities, p.1 = n → st.is_being_removed p.2 = true) :
    (st.find_entity n = none ∧ st.get_entity n = none) ∧
    (∀ st3 : Registry, (st3.remove_entity_named n).get_entity n = none) := by
  constructor
  · have hf : st.find_entity n = none := by
      unfold Registry.find_entity
      cases hfind : st.named_entities.find? (fun p => p.1 == n) with
      | none => rfl
      | some p =>
        have hp1 : p.1 = n := by simpa using List.find?_some hfind
        have hmem := List.mem_of_find?_eq_some hfind
        simp [hnolive p hmem hp1]
    exact ⟨hf, hf⟩
  · intro st3
    cases hfind : st3.named_entities.find? (fun p => p.1 == n) with
    | none =>
      have hred : st3.remove_entity_named n = st3 := by
        unfold Registry.remove_entity_named
        rw [hfind]
      rw [hred]
      unfold Registry.get_entity Registry.find_entity
      rw [hfind]
    | some p =>
      have hred : st3.remove_entity_named n = st3.remove_entity p.2 := by
        unfold Registry.remove_entity_named
        rw [hfind]
      have hrm : (st3.remove_entity p.2).is_being_removed p.2 = true :=
        lookupRemoved_markRemoved st3.entities p.2
      rw [hred]
      unfold Registry.get_entity Registry.find_entity
      have hn2 : (st3.remove_entity p.2).named_entities = st3.named_entities := rfl
      rw [hn2, hfind]
      simp [hrm]

/-- Witness for C8 on a registry whose only entry for `"x"` is already
being removed. -/
def c8Reg : Registry :=
  ⟨1, [(7, ⟨some "x", 0, 0, false, true⟩)], [("x", 7)], [7], [(0, [[7]])],
    [7], [⟨[(7, 1)], 0, 1⟩], [7], [[7]], [[]]⟩

theorem lookup_miss_and_logical_removal_witness :
    (c8Reg.find_entity "x" = none ∧ c8Reg.get_entity "x" = none) ∧
    (∀ st3 : Registry, (st3.remove_entity_named "x").get_entity "x" = none) :=
  lookup_miss_and_logical_removal c8Reg "x" (by decide)

/-- With distinct names in the named map, two entries sharing a name are
the same entry. -/
theorem entry_eq_of_nodup_keys {l : List (String × Nat)}
    (hkeys : (l.map Prod.fst).Nodup) {a b : String × Nat}
    (ha : a ∈ l) (hb : b ∈ l) (hfst : a.1 = b.1) : a = b := by
  by_cases hab : a = b
  · exact hab
  · have hpw : l.Pairwise (fun x y => x.1 ≠ y.1) := List.pairwise_map.mp hkeys
    have hsym : Symmetric (fun x y : String × Nat => x.1 ≠ y.1) :=
      fun x y h h2 => h h2.symm
    exact absurd hfst (hpw.forall hsym ha hb hab)

/-- C6: adding an entity whose name is borne by a live entity fails, and
after removing that entity by name and running the sweep, the same name
is accepted again. -/
theorem add_entity_name_uniqueness (st : Registry) (e e2 : Nat)
    (info info2 : EntityInfo) (n : String) (p : String × Nat)
    (hmem : p ∈ st.named_entities) (hp : p.1 = n)
    (hlive : st.is_being_removed p.2 = false)
    (hname : info.name = some n) (hname2 : info2.name = some n)
    (hkeys : (st.named_entities.map Prod.fst).Nodup) :
    (∃ msg, st.add_entity e info = Except.error msg) ∧
    (∃ st2, ((st.remove_entity_named n).update).add_entity e2 info2 =
      Except.ok st2) := by
  constructor
  · refine ⟨"name already in use: " ++ n, ?_⟩
    have hany : (st.named_entities.any fun r => r.1 == n) = true :=
      List.any_eq_true.mpr ⟨p, hmem, by simpa using hp⟩
    unfold Registry.add_entity
    rw [hname]
    simp [hany]
  · have hsome : (st.named_entities.find? (fun r => r.1 == n)).isSome := by
      rw [List.find?_isSome]
      exact ⟨p, hmem, by simpa using hp⟩
    cases hfind : st.named_entities.find? (fun r => r.1 == n) with
    | none => rw [hfind] at hsome; simp at hsome
    | some q =>
      have hq1 : q.1 = n := by simpa using List.find?_some hfind
      have hqmem := List.mem_of_find?_eq_some hfind
      have hred : st.remove_entity_named n = st.remove_entity q.2 := by
        unfold Registry.remove_entity_named
        rw [hfind]
      rw [hred]
      have hany2 :
          (((st.remove_entity q.2).update).named_entities.any fun r => r.1 == n) = false := by
        rw [Bool.eq_false_iff]
        intro hany
        obtain ⟨r, hr, hrn⟩ := List.any_eq_true.mp hany
        have hrn2 : r.1 = n := by simpa using hrn
        simp only [Registry.update, Registry.remove_marked_entities] at hr
        have hr2 := List.mem_filter.mp hr
        have hrq : r = q :=
          entry_eq_of_nodup_keys hkeys hr2.1 hqmem (hrn2.trans hq1.symm)
        have hx := hr2.2
        simp only [Bool.not_eq_eq_eq_not, Bool.not_true] at hx
        rw [hrq] at hx
        have hcontains :
            ((st.remove_entity q.2).entities_to_remove).contains q.2 = true := by
          simp [Registry.remove_entity, List.contains, List.elem_iff]
        rw [hcontains] at hx
        simp at hx
      refine ⟨((st.remove_entity q.2).update).register e2 info2, ?_⟩
      unfold Registry.add_entity
      rw [hname2]
      simp [hany2]

/-- A registry with a single live entity named `"x"` (id 7). -/
def c6Reg : Registry :=
  ⟨1, [(7, ⟨some "x", 0, 0, false, false⟩)], [("x", 7)], [7], [(0, [[7]])],
    [7], [⟨[(7, 1)], 0, 1⟩], [], [[7]], [[]]⟩

/-- Witness for C6: on `c6Reg`, re-adding name `"x"` fails while it is
live, and succeeds after removal by name plus one `update()` sweep. -/
theorem add_entity_name_uniqueness_witness :
    (∃ msg, c6Reg.add_entity 8 ⟨some "x", 0, 0, false, false⟩ = Except.error msg) ∧
    (∃ st2, ((c6Reg.remove_entity_named "x").update).add_entity 9
      ⟨some "x", 0, 0, false, false⟩ = Except.ok st2) :=
  add_entity_name_uniqueness c6Reg 8 9 ⟨some "x", 0, 0, false, false⟩
    ⟨some "x", 0, 0, false, false⟩ "x" ("x", 7) (by decide) rfl (by decide)
    rfl rfl (by decide)

/-- `MapEntities::get_entities_by_type<T>(int layer)` (template body in
the header): look the type up in `entities_by_type`; an absent type gives
the empty result, otherwise the per-layer set `sets[layer]`. -/
def Registry.get_entities_by_type_on_layer (st : Registry) (t layerIdx : Nat) :
    List Nat :=
  match st.entities_by_type.find? (fun p => p.1 == t) with
  | none => []
  | some p => p.2.getD layerIdx []

/-- `MapEntities::get_entities_by_type<T>()` (template body in the
header): fold over layers `0 .. num_layers - 1`, accumulating each
per-layer result. -/
def Registry.get_entities_by_type_all (st : Registry) (t : Nat) : List Nat :=
  (List.range st.num_layers).foldl
    (fun acc layerIdx => acc ++ st.get_entities_by_type_on_layer t layerIdx) []

/-- Folding list appends equals one `flatMap`. -/
theorem foldl_append_eq_flatMap {α β : Type} (f : α → List β) :
    ∀ (xs : List α) (init : List β),
      xs.foldl (fun acc x => acc ++ f x) init = init ++ xs.flatMap f := by
  intro xs
  induction xs with
  | nil => intro init; simp
  | cons x t ih =>
    intro init
    simp only [List.foldl_cons, List.flatMap_cons, ih (init ++ f x)]
    simp [List.append_assoc]

/-- C9: the layer-less `get_entities_by_type` is exactly the union over
layers `0 .. num_layers - 1` of the per-layer overload, and a type with
no stored entry yields the empty set on every layer. -/
theorem get_entities_by_type_union (st : Registry) (t : Nat) :
    (∀ e : Nat, e ∈ st.get_entities_by_type_all t ↔
      ∃ layerIdx, layerIdx < st.num_layers ∧
        e ∈ st.get_entities_by_type_on_layer t layerIdx) ∧
    (st.entities_by_type.find? (fun p => p.1 == t) = none →
      ∀ layerIdx, st.get_entities_by_type_on_layer t layerIdx = []) := by
  constructor
  · intro e
    unfold Registry.get_entities_by_type_all
    rw [foldl_append_eq_flatMap]
    simp only [List.nil_append, List.mem_flatMap, List.mem_range]
  · intro hnone layerIdx
    unfold Registry.get_entities_by_type_on_layer
    rw [hnone]

/-- Witness for C9: on `c8Reg`, type 99 has no stored entry and every
per-layer query for it is empty. -/
theorem get_entities_by_type_union_witness :
    c8Reg.get_entities_by_type_on_layer 99 0 = [] :=
  (get_entities_by_type_union c8Reg 99).2 (by decide) 0

/-- An axis-aligned rectangle (x, y, width, height), as `Rectangle`. -/
structure Rect where
  x : Int
  y : Int
  w : Int
  h : Int
  deriving DecidableEq, Repr

/-- Modelled from the spec: the bounding-box overlap test used by
rectangle queries (the geometry headers are not part of this tree). -/
def Rect.overlaps (a b : Rect) : Bool :=
  decide (a.x < b.x + b.w) && decide (b.x < a.x + a.w) &&
  decide (a.y < b.y + b.h) && decide (b.y < a.y + a.h)

/-- The attributes of an entity consumed by draw ordering: id, layer, the
"drawn in Y-order" flag, the y coordinate, the cached Z and the bounding
box. -/
structure DrawEntity where
  eid : Nat
  layer : Nat
  yOrder : Bool
  y : Int
  z : Int
  box : Rect
  deriving DecidableEq, Repr

/-- The per-layer draw lists and the quadtree contents of a map state
(fields `entities_drawn_first`, `entities_drawn_y_order` and the quadtree
of `MapEntities.h`). -/
structure DrawState where
  num_layers : Nat
  entities_drawn_first : List (List DrawEntity)
  entities_drawn_y_order : List (List DrawEntity)
  quadtree : List DrawEntity
  deriving DecidableEq, Repr

/-- Within a layer, normal-order entities (flag 0) come before Y-order
entities (flag 1). -/
def flag01 (e : DrawEntity) : Nat :=
  if e.yOrder then 1 else 0

/-- The y coordinate participates in the order only for Y-order
entities. -/
def ySel (e : DrawEntity) : Int :=
  if e.yOrder then e.y else 0

/-- The draw-order sort key: layer, then normal-before-Y-order, then y
(Y-order entities only), then Z. -/
def drawKey (e : DrawEntity) : Nat × Nat × Int × Int :=
  (e.layer, flag01 e, ySel e, e.z)

/-- Modelled from the spec: the comparator realising "ascending layer,
then within a layer by draw order (normal-order entities by Z, Y-order
entities by ascending y with ties broken by Z)". -/
def drawLE (a b : DrawEntity) : Bool :=
  if a.layer ≠ b.layer then decide (a.layer < b.layer)
  else if flag01 a ≠ flag01 b then decide (flag01 a < flag01 b)
  else if ySel a ≠ ySel b then decide (ySel a < ySel b)
  else decide (a.z ≤ b.z)

/-- Comparator of the normal-order chunk of a layer: ascending Z. -/
def zLE (a b : DrawEntity) : Bool :=
  decide (a.z ≤ b.z)

/-- Comparator of the Y-order chunk of a layer: ascending y, ties broken
by Z. -/
def yzLE (a b : DrawEntity) : Bool :=
  decide (a.y < b.y) || (decide (a.y = b.y) && decide (a.z ≤ b.z))

/-- Modelled from the spec: `get_entities_in_rectangle` delegates to the
quadtree and returns every intersecting entity, with no ordering
guarantee of its own. -/
def DrawState.get_entities_in_rectangle (st : DrawState) (r : Rect) :
    List DrawEntity :=
  st.quadtree.filter (fun e => e.box.overlaps r)

/-- Modelled from the spec: `get_entities_in_rectangle_sorted` sorts the
rectangle query's result by ascending layer, then by within-layer draw
order. -/
def DrawState.get_entities_in_rectangle_sorted (st : DrawState) (r : Rect) :
    List DrawEntity :=
  (st.get_entities_in_rectangle r).mergeSort drawLE

/-- Modelled from the spec: the order `draw()` draws entities: for each
layer low to high, the layer's normal-order entities by ascending Z, then
its Y-order entities by ascending y with Z as tiebreak. -/
def DrawState.draw_order (st : DrawState) : List DrawEntity :=
  (List.range st.num_layers).flatMap (fun l =>
    (st.entities_drawn_first.getD l []).mergeSort zLE ++
    (st.entities_drawn_y_order.getD l []).mergeSort yzLE)

/-- Every entity in some draw list of the state, grouped by layer. -/
def DrawState.all_drawn (st : DrawState) : List DrawEntity :=
  (List.range st.num_layers).flatMap (fun l =>
    st.entities_drawn_first.getD l [] ++ st.entities_drawn_y_order.getD l [])

/-- Well-formedness of a draw state: one normal and one Y-order list per
layer, and each list holds exactly entities of its own layer and flag. -/
def DrawState.wf (st : DrawState) : Bool :=
  st.entities_drawn_first.length == st.num_layers &&
  st.entities_drawn_y_order.length == st.num_layers &&
  (List.range st.num_layers).all (fun l =>
    (st.entities_drawn_first.getD l []).all
      (fun e => e.layer == l && e.yOrder == false) &&
    (st.entities_drawn_y_order.getD l []).all
      (fun e => e.layer == l && e.yOrder == true))

/-- `drawLE` is transitive. -/
theorem drawLE_trans (a b c : DrawEntity) (hab : drawLE a b = true)
    (hbc : drawLE b c = true) : drawLE a c = true := by
  unfold drawLE at hab hbc ⊢
  split_ifs at hab hbc ⊢ <;> simp only [decide_eq_true_eq] at * <;> omega

/-- `drawLE` is total. -/
theorem drawLE_total (a b : DrawEntity) :
    (drawLE a b || drawLE b a) = true := by
  unfold drawLE
  split_ifs <;> simp only [Bool.or_eq_true, decide_eq_true_eq] <;> omega

/-- Two entities below each other under `drawLE` share a draw key. -/
theorem drawLE_antisymm_key (a b : DrawEntity) (hab : drawLE a b = true)
    (hba : drawLE b a = true) : drawKey a = drawKey b := by
  unfold drawLE at hab hba
  unfold drawKey
  simp only [Prod.mk.injEq]
  split_ifs at hab hba <;> simp only [decide_eq_true_eq] at * <;> omega

/-- `zLE` is transitive. -/
theorem zLE_trans (a b c : DrawEntity) (hab : zLE a b = true)
    (hbc : zLE b c = true) : zLE a c = true := by
  simp only [zLE, decide_eq_true_eq] at *
  omega

/-- `zLE` is total. -/
theorem zLE_total (a b : DrawEntity) : (zLE a b || zLE b a) = true := by
  simp only [zLE, Bool.or_eq_true, decide_eq_true_eq]
  omega

/-- `yzLE` is transitive. -/
theorem yzLE_trans (a b c : DrawEntity) (hab : yzLE a b = true)
    (hbc : yzLE b c = true) : yzLE a c = true := by
  simp only [yzLE, Bool.or_eq_true, Bool.and_eq_true, decide_eq_true_eq] at *
  omega

/-- `yzLE` is total. -/
theorem yzLE_total (a b : DrawEntity) : (yzLE a b || yzLE b a) = true := by
  simp only [yzLE, Bool.or_eq_true, Bool.and_eq_true, decide_eq_true_eq]
  omega

/-- Entities on a lower layer come first under `drawLE`. -/
theorem drawLE_of_layer_lt (a b : DrawEntity) (h : a.layer < b.layer) :
    drawLE a b = true := by
  unfold drawLE
  rw [if_pos (by omega)]
  simpa using h

/-- Within a layer, a normal-order entity precedes a Y-order entity. -/
theorem drawLE_of_flag (a b : DrawEntity) (hl : a.layer = b.layer)
    (ha : a.yOrder = false) (hb : b.yOrder = true) : drawLE a b = true := by
  unfold drawLE flag01
  rw [if_neg (by omega), ha, hb]
  simp

/-- Within a layer, `drawLE` on two normal-order entities is the Z
order. -/
theorem drawLE_of_normal (a b : DrawEntity) (hl : a.layer = b.layer)
    (ha : a.yOrder = false) (hb : b.yOrder = false)
    (hz : zLE a b = true) : drawLE a b = true := by
  unfold drawLE flag01 ySel
  simp only [zLE, decide_eq_true_eq] at hz
  rw [ha, hb]
  simp only [if_false, Bool.false_eq_true]
  rw [if_neg (by omega), if_neg (by omega), if_neg (by omega)]
  simpa using hz

/-- Within a layer, `drawLE` on two Y-order entities is the (y, Z)
order. -/
theorem drawLE_of_yorder (a b : DrawEntity) (hl : a.layer = b.layer)
    (ha : a.yOrder = true) (hb : b.yOrder = true)
    (hyz : yzLE a b = true) : drawLE a b = true := by
  unfold drawLE flag01 ySel
  simp only [yzLE, Bool.or_eq_true, Bool.and_eq_true, decide_eq_true_eq] at hyz
  rw [ha, hb]
  simp only [if_true]
  rw [if_neg (by omega)]
  split_ifs <;> simp only [decide_eq_true_eq] <;> omega

/-- Two permuted lists, each pairwise ordered by an asymmetric relation,
are equal. -/
theorem eq_of_perm_of_pairwise {α : Type} {R : α → α → Prop}
    (hR : ∀ a b, R a b → R b a → False) :
    ∀ {l1 l2 : List α}, l1.Perm l2 → l1.Pairwise R → l2.Pairwise R →
      l1 = l2 := by
  intro l1
  induction l1 with
  | nil =>
    intro l2 hp _ _
    exact hp.nil_eq
  | cons a t ih =>
    intro l2 hp hp1 hp2
    cases l2 with
    | nil =>
      have := hp.length_eq
      simp at this
    | cons b t2 =>
      by_cases hab : a = b
      · subst hab
        rw [ih hp.cons_inv (List.pairwise_cons.mp hp1).2
          (List.pairwise_cons.mp hp2).2]
      · have ha2 : a ∈ b :: t2 := hp.mem_iff.mp (List.mem_cons_self a t)
        have ha3 : a ∈ t2 := by
          rcases List.mem_cons.mp ha2 with h | h
          · exact absurd h hab
          · exact h
        have hb1 : b ∈ a :: t := hp.mem_iff.mpr (List.mem_cons_self b t2)
        have hb2 : b ∈ t := by
          rcases List.mem_cons.mp hb1 with h | h
          · exact absurd h.symm hab
          · exact h
        have hRab : R a b := (List.pairwise_cons.mp hp1).1 b hb2
        have hRba : R b a := (List.pairwise_cons.mp hp2).1 a ha3
        exact absurd hRba (fun h => hR a b hRab h)

/-- `flatMap` respects pointwise permutation of the chunks. -/
theorem flatMap_perm_congr {α β : Type} (xs : List α) (f g : α → List β)
    (h : ∀ x ∈ xs, (f x).Perm (g x)) :
    (xs.flatMap f).Perm (xs.flatMap g) := by
  induction xs with
  | nil => exact List.Perm.refl _
  | cons x t ih =>
    simp only [List.flatMap_cons]
    exact (h x (List.mem_cons_self x t)).append
      (ih (fun x2 hx2 => h x2 (List.mem_cons_of_mem x hx2)))

/-- A `flatMap` over `List.range` is pairwise ordered when each chunk is
and chunks of smaller indices sit entirely below chunks of larger
indices. -/
theorem pairwise_flatMap_range {α : Type} {R : α → α → Prop} (n : Nat)
    (f : Nat → List α)
    (hchunk : ∀ l, (f l).Pairwise R)
    (hcross : ∀ l1 l2, l1 < l2 → ∀ a ∈ f l1, ∀ b ∈ f l2, R a b) :
    ((List.range n).flatMap f).Pairwise R := by
  induction n with
  | zero => simp
  | succ m ih =>
    rw [List.range_succ, List.flatMap_append, List.pairwise_append]
    refine ⟨ih, ?_, ?_⟩
    · simp only [List.flatMap_cons, List.flatMap_nil, List.append_nil]
      exact hchunk m
    · intro a ha b hb
      simp only [List.mem_flatMap, List.mem_range] at ha
      obtain ⟨l, hl, hal⟩ := ha
      simp only [List.flatMap_cons, List.flatMap_nil, List.append_nil] at hb
      exact hcross l m hl a hal b hb

/-- In a well-formed draw state, a member of a layer's normal-order list
is a normal-order entity of that layer. -/
theorem wf_first_mem (st : DrawState) (hwf : st.wf = true) (l : Nat)
    (a : DrawEntity) (ha : a ∈ st.entities_drawn_first.getD l []) :
    a.layer = l ∧ a.yOrder = false := by
  unfold DrawState.wf at hwf
  simp only [Bool.and_eq_true, beq_iff_eq, List.all_eq_true] at hwf
  obtain ⟨⟨hlen1, _⟩, hlayers⟩ := hwf
  by_cases hl : l < st.num_layers
  · have h2 := (hlayers l (List.mem_range.mpr hl)).1 a ha
    simp only [Bool.and_eq_true, beq_iff_eq] at h2
    exact ⟨h2.1, by simpa using h2.2⟩
  · rw [List.getD_eq_default _ _ (by omega)] at ha
    exact absurd ha (List.not_mem_nil a)

/-- In a well-formed draw state, a member of a layer's Y-order list is a
Y-order entity of that layer. -/
theorem wf_yorder_mem (st : DrawState) (hwf : st.wf = true) (l : Nat)
    (a : DrawEntity) (ha : a ∈ st.entities_drawn_y_order.getD l []) :
    a.layer = l ∧ a.yOrder = true := by
  unfold DrawState.wf at hwf
  simp only [Bool.and_eq_true, beq_iff_eq, List.all_eq_true] at hwf
  obtain ⟨⟨_, hlen2⟩, hlayers⟩ := hwf
  by_cases hl : l < st.num_layers
  · have h2 := (hlayers l (List.mem_range.mpr hl)).2 a ha
    simp only [Bool.and_eq_true, beq_iff_eq] at h2
    exact ⟨h2.1, by simpa using h2.2⟩
  · rw [List.getD_eq_default _ _ (by omega)] at ha
    exact absurd ha (List.not_mem_nil a)

/-- The draw order of a well-formed state is sorted by `drawLE`. -/
theorem draw_order_pairwise (st : DrawState) (hwf : st.wf = true) :
    st.draw_order.Pairwise (fun a b => drawLE a b = true) := by
  unfold DrawState.draw_order
  apply pairwise_flatMap_range
  · intro l
    rw [List.pairwise_append]
    refine ⟨?_, ?_, ?_⟩
    · have hs := List.sorted_mergeSort zLE_trans zLE_total
        (st.entities_drawn_first.getD l [])
      refine hs.imp_of_mem ?_
      intro a b ha hb hz
      have haf := wf_first_mem st hwf l a
        ((List.mergeSort_perm _ zLE).mem_iff.mp ha)
      have hbf := wf_first_mem st hwf l b
        ((List.mergeSort_perm _ zLE).mem_iff.mp hb)
      exact drawLE_of_normal a b (haf.1.trans hbf.1.symm) haf.2 hbf.2 hz
    · have hs := List.sorted_mergeSort yzLE_trans yzLE_total
        (st.entities_drawn_y_order.getD l [])
      refine hs.imp_of_mem ?_
      intro a b ha hb hyz
      have haf := wf_yorder_mem st hwf l a
        ((List.mergeSort_perm _ yzLE).mem_iff.mp ha)
      have hbf := wf_yorder_mem st hwf l b
        ((List.mergeSort_perm _ yzLE).mem_iff.mp hb)
      exact drawLE_of_yorder a b (haf.1.trans hbf.1.symm) haf.2 hbf.2 hyz
    · intro a ha b hb
      have haf := wf_first_mem st hwf l a
        ((List.mergeSort_perm _ zLE).mem_iff.mp ha)
      have hbf := wf_yorder_mem st hwf l b
        ((List.mergeSort_perm _ yzLE).mem_iff.mp hb)
      exact drawLE_of_flag a b (haf.1.trans hbf.1.symm) haf.2 hbf.2
  · intro l1 l2 hlt a ha b hb
    have hal : a.layer = l1 := by
      rcases List.mem_append.mp ha with h | h
      · exact (wf_first_mem st hwf l1 a
          ((List.mergeSort_perm _ zLE).mem_iff.mp h)).1
      · exact (wf_yorder_mem st hwf l1 a
          ((List.mergeSort_perm _ yzLE).mem_iff.mp h)).1
    have hbl : b.layer = l2 := by
      rcases List.mem_append.mp hb with h | h
      · exact (wf_first_mem st hwf l2 b
          ((List.mergeSort_perm _ zLE).mem_iff.mp h)).1
      · exact (wf_yorder_mem st hwf l2 b
          ((List.mergeSort_perm _ yzLE).mem_iff.mp h)).1
    exact drawLE_of_layer_lt a b (by omega)

/-- C1: for every well-formed map state (quadtree holding exactly the
drawn entities, distinct draw keys) and every query rectangle,
`get_entities_in_rectangle_sorted` returns exactly the matching entities
in the order `draw()` draws them: ascending layer, then normal-order
entities by ascending Z followed by Y-order entities by ascending y with
Z breaking ties. -/
theorem rectangle_query_matches_draw_order (st : DrawState) (r : Rect)
    (hwf : st.wf = true)
    (hq : st.quadtree.Perm st.all_drawn)
    (hkeys : (st.all_drawn.map drawKey).Nodup) :
    st.get_entities_in_rectangle_sorted r =
      st.draw_order.filter (fun e => e.box.overlaps r) := by
  have hperm1 : (st.get_entities_in_rectangle_sorted r).Perm
      (st.all_drawn.filter (fun e => e.box.overlaps r)) := by
    unfold DrawState.get_entities_in_rectangle_sorted
      DrawState.get_entities_in_rectangle
    exact (List.mergeSort_perm _ drawLE).trans (hq.filter _)
  have hpermd : st.draw_order.Perm st.all_drawn := by
    unfold DrawState.draw_order DrawState.all_drawn
    apply flatMap_perm_congr
    intro l _
    exact (List.mergeSort_perm _ zLE).append (List.mergeSort_perm _ yzLE)
  have hperm2 : (st.draw_order.filter (fun e => e.box.overlaps r)).Perm
      (st.all_drawn.filter (fun e => e.box.overlaps r)) := hpermd.filter _
  have hpermLR : (st.get_entities_in_rectangle_sorted r).Perm
      (st.draw_order.filter (fun e => e.box.overlaps r)) :=
    hperm1.trans hperm2.symm
  have hK_all : st.all_drawn.Pairwise (fun a b => drawKey a ≠ drawKey b) :=
    List.pairwise_map.mp hkeys
  have hK_filter : (st.all_drawn.filter (fun e => e.box.overlaps r)).Pairwise
      (fun a b => drawKey a ≠ drawKey b) := hK_all.filter _
  have hK_lhs := (hperm1.pairwise_iff (fun h h2 => h h2.symm)).mpr hK_filter
  have hK_rhs := (hperm2.pairwise_iff (fun h h2 => h h2.symm)).mpr hK_filter
  have hL_lhs : (st.get_entities_in_rectangle_sorted r).Pairwise
      (fun a b => drawLE a b = true) :=
    List.sorted_mergeSort drawLE_trans drawLE_total _
  have hL_rhs : (st.draw_order.filter (fun e => e.box.overlaps r)).Pairwise
      (fun a b => drawLE a b = true) :=
    (draw_order_pairwise st hwf).filter _
  exact eq_of_perm_of_pairwise
    (fun a b h1 h2 => h1.2 (drawLE_antisymm_key a b h1.1 h2.1))
    hpermLR (hL_lhs.and hK_lhs) (hL_rhs.and hK_rhs)

/-- A concrete two-layer state: two normal-order and two Y-order entities
on layer 0, one normal-order entity on layer 1, quadtree scrambled. -/
def c1State : DrawState :=
  ⟨2,
    [[⟨1, 0, false, 0, 1, ⟨0, 0, 10, 10⟩⟩, ⟨2, 0, false, 0, 2, ⟨5, 0, 10, 10⟩⟩],
     [⟨5, 1, false, 0, 1, ⟨0, 0, 4, 4⟩⟩]],
    [[⟨3, 0, true, 4, 3, ⟨0, 0, 8, 8⟩⟩, ⟨4, 0, true, 2, 4, ⟨0, 0, 8, 8⟩⟩],
     []],
    [⟨5, 1, false, 0, 1, ⟨0, 0, 4, 4⟩⟩, ⟨3, 0, true, 4, 3, ⟨0, 0, 8, 8⟩⟩,
     ⟨1, 0, false, 0, 1, ⟨0, 0, 10, 10⟩⟩, ⟨4, 0, true, 2, 4, ⟨0, 0, 8, 8⟩⟩,
     ⟨2, 0, false, 0, 2, ⟨5, 0, 10, 10⟩⟩]⟩

/-- Witness for C1 on `c1State` with the query rectangle (0,0)-(9,9). -/
theorem rectangle_query_matches_draw_order_witness :
    c1State.get_entities_in_rectangle_sorted ⟨0, 0, 9, 9⟩ =
      c1State.draw_order.filter (fun e => e.box.overlaps ⟨0, 0, 9, 9⟩) :=
  rectangle_query_matches_draw_order c1State ⟨0, 0, 9, 9⟩
    (by decide) (by decide) (by decide)
end Solarus
